import Mathlib

/-!
Verification of the value-range analysis pass `BoundVars`
(`torch/_inductor/bounds.py`).

The file shallowly embeds the `BoundVars` class: its constructor seeding,
the submodule dispatch table built by `swap_submodules`, the three
submodule operations (`get_index`, `masked_subblock`, `set_indirect`) and
the memoized driver `get_bounds`.  External collaborators (the interval
domain `ValueRanges`, the symbolic evaluator `bound_sympy`, the generic
interpreter `InterpreterShim`, the dominance utility `dominated_nodes`,
and the memoization decorator `cache_on_self`) are modelled from the
specification, as marked on each definition.

Python exceptions (assertion failures, key errors) are modelled with
`Except String`.  Machine-level recursion of the interpreter is made
total with an explicit fuel argument; every theorem about a run is
conditioned on the run producing a result, so fuel exhaustion never
stands in for program behaviour.
-/

/-- Modelled from the spec: an endpoint of an interval over the extended
integers (the interval domain is the external `ValueRanges` contract). -/
inductive EVal where
  | negInf
  | fin (z : Int)
  | posInf
deriving DecidableEq, Repr

/-- Modelled from the spec: order on extended-integer endpoints. -/
def EVal.le : EVal → EVal → Bool
  | .negInf, _ => true
  | _, .posInf => true
  | .fin a, .fin b => decide (a ≤ b)
  | _, _ => false

/-- Modelled from the spec: minimum of two endpoints. -/
def EVal.emin (a b : EVal) : EVal := if EVal.le a b then a else b

/-- Modelled from the spec: maximum of two endpoints. -/
def EVal.emax (a b : EVal) : EVal := if EVal.le a b then b else a

/-- Modelled from the spec: endpoint addition (only ever applied to two
lower endpoints or two upper endpoints of valid intervals). -/
def EVal.add : EVal → EVal → EVal
  | .fin a, .fin b => .fin (a + b)
  | .negInf, _ => .negInf
  | _, .negInf => .negInf
  | _, _ => .posInf

/-- Modelled from the spec: the interval domain (`ValueRanges`): a pair
of endpoints; the distinguished unknown interval is `(-inf, +inf)`. -/
structure VR where
  lower : EVal
  upper : EVal
deriving DecidableEq, Repr

/-- Modelled from the spec: the unknown interval `ValueRanges.unknown()`. -/
def VR.unknown : VR := ⟨.negInf, .posInf⟩

/-- Modelled from the spec: `ValueRanges.tighten`, the lattice
intersection of two intervals. -/
def VR.tighten (a b : VR) : VR :=
  ⟨EVal.emax a.lower b.lower, EVal.emin a.upper b.upper⟩

/-- Modelled from the spec: decidable subset test between intervals
(`a` is contained in `b`). -/
def VR.subsetB (a b : VR) : Bool :=
  EVal.le b.lower a.lower && EVal.le a.upper b.upper

/-- Modelled from the spec: interval addition of the external interval
arithmetic. -/
def VR.addV (a b : VR) : VR :=
  ⟨EVal.add a.lower b.lower, EVal.add a.upper b.upper⟩

/-- Modelled from the spec: symbolic index expressions (the fragment of
the external symbolic-expression library the analysis consumes: symbols,
integer literals and sums). -/
inductive SExpr where
  | sym (s : String)
  | const (z : Int)
  | add (a b : SExpr)
deriving DecidableEq, Repr

/-- Modelled from the spec: `free_symbols`, the free-symbol query of the
symbolic-expression library. -/
def freeSymbols : SExpr → List String
  | .sym s => [s]
  | .const _ => []
  | .add a b => freeSymbols a ++ freeSymbols b

/-- Modelled from the spec: numeric value of a symbol-free expression
(a symbol-free sympy expression is automatically a number; the `sym`
case is never reached under the symbol-free guard). -/
def evalClosedExpr : SExpr → Int
  | .sym _ => 0
  | .const z => z
  | .add a b => evalClosedExpr a + evalClosedExpr b

/-- Key of the bound environment `replacement_vals`: the Python dict
holds both string keys (index names stored by `get_index`) and sympy
objects (loop/indirect symbols); a string key never compares equal to a
sympy expression. -/
inductive EnvKey where
  | name (s : String)
  | expr (e : SExpr)
deriving DecidableEq, Repr

/-- Association-list lookup (first matching key), modelling Python dict
read. -/
def alookup {α β : Type} [DecidableEq α] : List (α × β) → α → Option β
  | [], _ => none
  | (k, v) :: rest, k' => if k' = k then some v else alookup rest k'

/-- Association-list update (overwrite first occurrence or append),
modelling Python dict write. -/
def aupdate {α β : Type} [DecidableEq α] : List (α × β) → α → β → List (α × β)
  | [], k, v => [(k, v)]
  | (k0, v0) :: rest, k, v =>
      if k = k0 then (k, v) :: rest else (k0, v0) :: aupdate rest k v

/-- Character-list prefix test (used by the substring test below). -/
def leadsWith : List Char → List Char → Bool
  | [], _ => true
  | _ :: _, [] => false
  | a :: as, b :: bs => a == b && leadsWith as bs

/-- Substring occurrence over character lists. -/
def subListAt (pat : List Char) : List Char → Bool
  | [] => leadsWith pat []
  | c :: rest => leadsWith pat (c :: rest) || subListAt pat rest

/-- Python's `pat in hay` substring containment on strings. -/
def containsSubstr (hay pat : String) : Bool := subListAt pat.data hay.data

/-- Operand of an IR node: a reference to another node, or an inline
string (the index name passed to `get_index`). -/
inductive FxArg where
  | node (id : Nat)
  | str (s : String)
deriving DecidableEq, Repr

/-- Modelled from the spec: an IR node of the loop body's fx graph,
identified by a target name plus its operand list.  `id` models Python
object identity (environment dictionaries are keyed by the node
object). -/
structure FxNode where
  id : Nat
  target : String
  args : List FxArg
deriving DecidableEq, Repr

/-- Modelled from the spec: the external `LoopBody` contract: declared
variable ranges, index-expression table, indirect-variable list, the
nested sub-graph of each masked subblock, the root graph and the keys of
the submodule dict. -/
structure LoopBody where
  varRanges : List (String × SExpr)
  indexingExprs : List (String × SExpr)
  indirectVars : List String
  subblocks : List (String × List FxNode)
  rootGraph : List FxNode
  submoduleKeys : List String
deriving DecidableEq, Repr

/-- Modelled from the spec: `LoopBody.get_nodes()`, all nodes of the
root graph and of every nested sub-graph. -/
def LoopBody.getNodes (lb : LoopBody) : List FxNode :=
  lb.rootGraph ++ lb.subblocks.foldr (fun p acc => p.2 ++ acc) []

/-- Modelled from the spec: `bound_sympy`, the external sound symbolic
bound evaluator: evaluate an expression against the interval currently
recorded for each of its symbols (unknown when a symbol is absent). -/
def boundSympy (e : SExpr) (env : List (EnvKey × VR)) : VR :=
  match e with
  | .sym s => (alookup env (EnvKey.expr (SExpr.sym s))).getD VR.unknown
  | .const z => ⟨.fin z, .fin z⟩
  | .add a b => VR.addV (boundSympy a env) (boundSympy b env)

/-- Modelled from the spec: the seed test of the pessimism pass:
`node.target in ["load", "reduction"] or "masked_subblock" in node.target`. -/
def isSeedNode (n : FxNode) : Bool :=
  n.target == "load" || n.target == "reduction"
    || containsSubstr n.target "masked_subblock"

/-- Ids of the seed nodes of the dominance computation. -/
def seedIds (lb : LoopBody) : List Nat :=
  (lb.getNodes.filter isSeedNode).map FxNode.id

/-- A node reads (is data-dependent on) some node of the given id set. -/
def usesAny (n : FxNode) (s : Finset Nat) : Bool :=
  n.args.any (fun a => match a with
    | .node i => decide (i ∈ s)
    | .str _ => false)

/-- The set of node ids of a graph. -/
def nodeIdSet (nodes : List FxNode) : Finset Nat :=
  (nodes.map FxNode.id).toFinset

/-- Modelled from the spec: one forward-reachability step of the
dominance computation: add every node that reads a node already in the
set. -/
def domStep (nodes : List FxNode) (s : Finset Nat) : Finset Nat :=
  s ∪ (nodes.filterMap (fun n => if usesAny n s then some n.id else none)).toFinset

/-- Iterate `domStep` until a fixpoint is reached (or fuel runs out;
the fuel chosen in `dominatedIds` always suffices). -/
def domIter (nodes : List FxNode) : Nat → Finset Nat → Finset Nat
  | 0, s => s
  | fuel + 1, s =>
      if domStep nodes s = s then s else domIter nodes fuel (domStep nodes s)

/-- Modelled from the spec: `dominated_nodes` (not under `src/`): the set
of ids of the seed nodes together with every node transitively
data-dependent on them, computed as a one-shot forward reachability
fixpoint. -/
def dominatedIds (nodes : List FxNode) (seeds : Finset Nat) : Finset Nat :=
  domIter nodes ((nodeIdSet nodes).card + 1) seeds

/-- Specification-level transitive data dependence: a node id is
dominated when it is a seed, or when a node with that id reads a
dominated node. -/
inductive InDom (nodes : List FxNode) (seeds : List Nat) : Nat → Prop where
  | seed (i : Nat) : i ∈ seeds → InDom nodes seeds i
  | dep (n : FxNode) (m : Nat) : n ∈ nodes → InDom nodes seeds m →
      FxArg.node m ∈ n.args → InDom nodes seeds n.id

/-- `BoundVars.unbounded_vars`: the dominated set computed in the
constructor. -/
def unbounded_vars (lb : LoopBody) : List FxNode :=
  lb.getNodes.filter
    (fun n => decide (n.id ∈ dominatedIds lb.getNodes (seedIds lb).toFinset))

/-- The mutable state of a `BoundVars` instance: the bound environment
`replacement_vals`, the bounds map `_bounds` (keyed by node identity)
and the memoization cell of `get_bounds`. -/
structure BVState where
  replacement_vals : List (EnvKey × VR)
  bounds : List (Nat × VR)
  cache : Option (List (Nat × VR))
deriving DecidableEq, Repr

/-- `BoundVars.__init__` seeding of `replacement_vals`:
`ValueRanges(0, v if not free_symbols(v) else math.inf)` for each
declared variable range. -/
def initReplacementVals (lb : LoopBody) : List (EnvKey × VR) :=
  lb.varRanges.map (fun p =>
    (EnvKey.expr (SExpr.sym p.1),
     if freeSymbols p.2 = [] then ⟨EVal.fin 0, EVal.fin (evalClosedExpr p.2)⟩
     else ⟨EVal.fin 0, EVal.posInf⟩))

/-- `BoundVars.__init__`: fresh state of an engine instance
(`_bounds = {}`, no memoized result yet). -/
def BoundVars.init (lb : LoopBody) : BVState :=
  ⟨initReplacementVals lb, [], none⟩

/-- One iteration of the pre-population loop at the top of `get_bounds`:
give an unbounded node the unknown interval unless it is a
masked-subblock or set-indirect node. -/
def prepopStep (acc : List (Nat × VR)) (n : FxNode) : List (Nat × VR) :=
  if containsSubstr n.target "masked_subblock" = false
      ∧ containsSubstr n.target "set_indirect" = false
  then aupdate acc n.id VR.unknown else acc

/-- The pre-population loop at the top of `get_bounds`: give every
unbounded node the unknown interval, except masked-subblock and
set-indirect nodes. -/
def prepopulate (lb : LoopBody) (b : List (Nat × VR)) : List (Nat × VR) :=
  (unbounded_vars lb).foldl prepopStep b

/-- An entry of the dispatch table built by `swap_submodules`.  A masked
handler carries no sub-graph of its own: in the source it is a lambda
reading the function-local variable `subblock` of `swap_submodules`,
which Python closures capture by reference (late binding), so at call
time every masked handler reads the value that variable held after the
final loop iteration (the `subblockVar` field of `SwapResult`).
`badKeyH` models the `assert "set_indirect" in key` failure. -/
inductive SubmodHandler where
  | get_indexH
  | maskedH
  | set_indirectH (var : Option String)
  | badKeyH
deriving DecidableEq, Repr

/-- Result of `swap_submodules`: the dispatch table plus the final value
of the loop-local variable `subblock` shared by every masked closure. -/
structure SwapResult where
  table : List (String × SubmodHandler)
  subblockVar : Option (List FxNode)
deriving DecidableEq, Repr

/-- The loop body of `BoundVars.swap_submodules`, threading the local
variable `subblock` (assigned only on masked iterations; a missing
`subblocks[key]` entry, a `KeyError` in Python, leaves the cell empty). -/
def swapGo (lb : LoopBody) :
    List String → Option (List FxNode) → List (String × SubmodHandler) → SwapResult
  | [], cell, acc => ⟨acc, cell⟩
  | key :: rest, cell, acc =>
    if key = "get_index" then
      swapGo lb rest cell (acc ++ [(key, SubmodHandler.get_indexH)])
    else if containsSubstr key "masked_subblock" then
      swapGo lb rest (alookup lb.subblocks key) (acc ++ [(key, SubmodHandler.maskedH)])
    else if containsSubstr key "set_indirect" then
      swapGo lb rest cell
        (acc ++ [(key,
          SubmodHandler.set_indirectH
            (lb.indirectVars.get? (((key.drop ("set_indirect".length))).toNat?.getD 0)))])
    else
      swapGo lb rest cell (acc ++ [(key, SubmodHandler.badKeyH)])

/-- `BoundVars.swap_submodules`: build the dispatch table over the keys
of the loop body's submodule dict. -/
def swap_submodules (lb : LoopBody) : SwapResult :=
  swapGo lb lb.submoduleKeys none []

/-- A Python value flowing into `set_indirect`: an interval, or any
other value (which trips the `isinstance` assertion). -/
inductive PyVal where
  | vr (v : VR)
  | other (tag : String)
deriving DecidableEq, Repr

/-- `BoundVars.set_indirect`: assert the value is an interval, overwrite
the bound-environment entry of the indirect symbol, return the interval
unchanged.  On assertion failure the state is returned untouched (the
assert precedes the mutation). -/
def set_indirect (st : BVState) (old : String) (new : PyVal) :
    Except String VR × BVState :=
  match new with
  | .vr v =>
      (Except.ok v,
       { st with replacement_vals :=
           aupdate st.replacement_vals (EnvKey.expr (SExpr.sym old)) v })
  | .other _ => (Except.error "AssertionError", st)

/-- `BoundVars.get_index`: look up the index expression of the name,
read `replacement_vals.get(expr)` (keyed by the expression object),
evaluate `bound_sympy`, assert agreement with the expression-keyed
entry when present, tighten against it, and store the result under the
index name. -/
def get_index (lb : LoopBody) (st : BVState) (name : String) :
    Except String (VR × BVState) :=
  match alookup lb.indexingExprs name with
  | none => Except.error "KeyError"
  | some expr =>
    let prev_bound := alookup st.replacement_vals (EnvKey.expr expr)
    let bound := boundSympy expr st.replacement_vals
    match prev_bound with
    | none =>
        Except.ok (bound,
          { st with replacement_vals :=
              aupdate st.replacement_vals (EnvKey.name name) bound })
    | some pb =>
        if bound = pb then
          Except.ok (bound.tighten pb,
            { st with replacement_vals :=
                aupdate st.replacement_vals (EnvKey.name name) (bound.tighten pb) })
        else Except.error "AssertionError"

/-- Operand resolution of the generic interpreter: a node reference
reads the shared environment (the bounds map); a string operand carries
no interval. -/
def resolveVR (st : BVState) : FxArg → VR
  | .node i => (alookup st.bounds i).getD VR.unknown
  | .str _ => VR.unknown

/-- Modelled from the spec: the generic interpreter (`InterpreterShim`)
run over a graph: process the nodes in program order against the shared
state; a node already present in the environment is not recomputed; a
node whose target is a registered submodule dispatches to that handler,
any other node to the operation handler `ops`; each computed result is
recorded into the environment under the node.  The masked handler is the
closure registered by `swap_submodules`: it reads the shared `subblock`
cell of the swap loop and runs `masked_subblock` on it (that body is
inlined here; `masked_subblock` below is the same code).  One unit of
fuel is spent per processed node, so the recursion is structural in
`fuel`; an `OutOfFuel` error never certifies any claim. -/
def interpRun (lb : LoopBody) (sw : SwapResult) (ops : String → List VR → VR) :
    Nat → List FxNode → BVState → Except String BVState
  | _, [], st => Except.ok st
  | 0, _ :: _, _ => Except.error "OutOfFuel"
  | fuel + 1, n :: rest, st =>
    if (alookup st.bounds n.id).isSome then
      interpRun lb sw ops fuel rest st
    else
      match alookup sw.table n.target with
      | some SubmodHandler.get_indexH =>
        (match n.args with
         | [FxArg.str name] =>
           (match get_index lb st name with
            | Except.ok (v, st1) =>
                interpRun lb sw ops fuel rest
                  { st1 with bounds := aupdate st1.bounds n.id v }
            | Except.error e => Except.error e)
         | _ => Except.error "TypeError")
      | some SubmodHandler.maskedH =>
        (match sw.subblockVar with
         | some g =>
           (match n.args with
            | [_, _] =>
              (match interpRun lb sw ops fuel g st with
               | Except.error e => Except.error e
               | Except.ok st1 =>
                 (match g.filter (fun nd => nd.target == "output") with
                  | [out] =>
                    (match alookup st1.bounds out.id with
                     | some r =>
                         interpRun lb sw ops fuel rest
                           { st1 with bounds := aupdate st1.bounds n.id r }
                     | none => Except.error "KeyError")
                  | _ => Except.error "AssertionError"))
            | _ => Except.error "TypeError")
         | none => Except.error "NameError")
      | some (SubmodHandler.set_indirectH ovar) =>
        (match ovar, n.args with
         | some var, [a] =>
           (match set_indirect st var (PyVal.vr (resolveVR st a)) with
            | (Except.ok v, st1) =>
                interpRun lb sw ops fuel rest
                  { st1 with bounds := aupdate st1.bounds n.id v }
            | (Except.error e, _) => Except.error e)
         | _, _ => Except.error "IndexError")
      | some SubmodHandler.badKeyH => Except.error "AssertionError"
      | none =>
        interpRun lb sw ops fuel rest
          { st with bounds := aupdate st.bounds n.id (ops n.target (n.args.map (resolveVR st))) }

/-- `BoundVars.masked_subblock`: recursively interpret the sub-graph
with the shared dispatch table and the shared environment, assert the
sub-graph has exactly one `output` node, and return that node's
recorded interval.  The `mask` and `value` parameters are accepted and
ignored, exactly as in the source. -/
def masked_subblock (lb : LoopBody) (sw : SwapResult) (ops : String → List VR → VR)
    (fuel : Nat) (subblock : List FxNode) (st : BVState) (mask value : VR) :
    Except String (VR × BVState) :=
  match interpRun lb sw ops fuel subblock st with
  | Except.error e => Except.error e
  | Except.ok st1 =>
    match subblock.filter (fun nd => nd.target == "output") with
    | [out] =>
      (match alookup st1.bounds out.id with
       | some v => Except.ok (v, st1)
       | none => Except.error "KeyError")
    | _ => Except.error "AssertionError"

/-- Invocation of a registered submodule handler `result[key](mask,
value)` for a masked key: the lambda built by `swap_submodules` calls
`self.masked_subblock(subblock, self._bounds, mask, value, result)`,
where `subblock` is the shared loop-local variable, read at call time
(Python late binding). -/
def callSubmodule (lb : LoopBody) (sw : SwapResult) (ops : String → List VR → VR)
    (fuel : Nat) (key : String) (mask value : VR) (st : BVState) :
    Except String (VR × BVState) :=
  match alookup sw.table key with
  | some SubmodHandler.maskedH =>
    (match sw.subblockVar with
     | some g => masked_subblock lb sw ops fuel g st mask value
     | none => Except.error "NameError")
  | _ => Except.error "TypeError"

/-- `BoundVars.get_bounds`: memoized driver (the `cache_on_self`
decorator, not under `src/`, is modelled from the spec as a nullable
cached-result field).  On a miss: build the dispatch table, pre-populate
the unbounded nodes, run the generic interpreter over the root graph
with the interval-arithmetic handler, return and cache the bounds
map. -/
def get_bounds (lb : LoopBody) (ops : String → List VR → VR) (fuel : Nat)
    (st : BVState) : Except String (List (Nat × VR) × BVState) :=
  match st.cache with
  | some b => Except.ok (b, st)
  | none =>
    match interpRun lb (swap_submodules lb) ops fuel lb.rootGraph
        { st with bounds := prepopulate lb st.bounds } with
    | Except.ok st2 => Except.ok (st2.bounds, { st2 with cache := some st2.bounds })
    | Except.error e => Except.error e

/-- Query whether an exceptional computation delivered a result. -/
def exOk {α : Type} : Except String α → Bool
  | Except.ok _ => true
  | Except.error _ => false

/-! ### Concrete instances used by witnesses and counterexamples -/

/-- Sub-graph of `masked_subblock0` in the late-binding scenario: its
output interval is `[0, 0]`. -/
def c1g0 : List FxNode := [⟨0, "c0", []⟩, ⟨1, "output", [FxArg.node 0]⟩]

/-- Sub-graph of `masked_subblock1` in the late-binding scenario: its
output interval is `[1, 1]`. -/
def c1g1 : List FxNode := [⟨2, "c1", []⟩, ⟨3, "output", [FxArg.node 2]⟩]

/-- A loop body with two masked subblocks. -/
def c1lb : LoopBody :=
  ⟨[], [], [], [("masked_subblock0", c1g0), ("masked_subblock1", c1g1)], [],
   ["masked_subblock0", "masked_subblock1"]⟩

/-- Interval-arithmetic handler for the late-binding scenario. -/
def c1ops : String → List VR → VR := fun t args =>
  if t = "c0" then ⟨EVal.fin 0, EVal.fin 0⟩
  else if t = "c1" then ⟨EVal.fin 1, EVal.fin 1⟩
  else args.headD VR.unknown

/-- A loop body whose index name `idx0` maps to the bare indirect
symbol `t`. -/
def c2lb : LoopBody := ⟨[], [("idx0", SExpr.sym "t")], ["t"], [], [], []⟩

/-- Bind the indirect symbol `t` to `[0, 10]`. -/
def c2step1 : Except String VR × BVState :=
  set_indirect (BoundVars.init c2lb) "t" (PyVal.vr ⟨EVal.fin 0, EVal.fin 10⟩)

/-- First resolution of the index name `idx0`. -/
def c2res1 : Except String (VR × BVState) := get_index c2lb c2step1.2 "idx0"

/-- State after the first resolution (the fallback arm is never taken;
the counterexample theorem certifies `c2res1` delivered a result). -/
def c2st2 : BVState :=
  match c2res1 with
  | Except.ok p => p.2
  | Except.error _ => c2step1.2

/-- Rebind the indirect symbol `t` to the looser `[0, 100]`. -/
def c2step2 : Except String VR × BVState :=
  set_indirect c2st2 "t" (PyVal.vr ⟨EVal.fin 0, EVal.fin 100⟩)

/-- Second resolution of the same index name `idx0`. -/
def c2res2 : Except String (VR × BVState) := get_index c2lb c2step2.2 "idx0"

/-- A root graph with a `load` node and an `add` node consuming it. -/
def c3lb : LoopBody :=
  ⟨[], [], [], [], [⟨0, "load", []⟩, ⟨1, "add", [FxArg.node 0]⟩], []⟩

/-- A loop body with one indirect variable, for the overwrite
counterexample. -/
def c4lb : LoopBody := ⟨[], [], ["t"], [], [], []⟩

/-- Bind `t` to `[0, 10]`. -/
def c4step1 : Except String VR × BVState :=
  set_indirect (BoundVars.init c4lb) "t" (PyVal.vr ⟨EVal.fin 0, EVal.fin 10⟩)

/-- Rebind `t` to the strictly looser `[0, 100]`. -/
def c4step2 : Except String VR × BVState :=
  set_indirect c4step1.2 "t" (PyVal.vr ⟨EVal.fin 0, EVal.fin 100⟩)

/-- Declared variable ranges: `i0` with the symbol-free bound `128`,
`s1` with a symbolic bound. -/
def c5lb : LoopBody :=
  ⟨[("i0", SExpr.const 128), ("s1", SExpr.add (SExpr.sym "u") (SExpr.const 1))],
   [], [], [], [], []⟩

/-- A well-formed masked sub-graph: one computation node and one
`output` node. -/
def c6g : List FxNode := [⟨20, "k6", []⟩, ⟨21, "output", [FxArg.node 20]⟩]

/-- A trivial loop body (empty dispatch table) for the masked-subblock
witness. -/
def c6lb : LoopBody := ⟨[], [], [], [], [], []⟩

/-- Handler giving the computation node of `c6g` the interval `[2, 3]`. -/
def c6ops : String → List VR → VR := fun t args =>
  if t = "k6" then ⟨EVal.fin 2, EVal.fin 3⟩ else args.headD VR.unknown

/-- A sub-graph with exactly one `output` node, for the assertion
witness. -/
def c7g : List FxNode := [⟨30, "k7", []⟩, ⟨31, "output", [FxArg.node 30]⟩]

/-- A trivial loop body for the assertion witness. -/
def c7lb : LoopBody := ⟨[], [], [], [], [], []⟩

/-- Handler for the assertion witness. -/
def c7ops : String → List VR → VR := fun _ args => args.headD VR.unknown

/-- A loop body with one declared range and a one-node root graph, for
the memoization witness. -/
def c9lb : LoopBody :=
  ⟨[("i0", SExpr.const 4)], [], [], [], [⟨40, "c9c", []⟩], []⟩

/-- Constant handler for the memoization witness. -/
def c9ops : String → List VR → VR := fun _ _ => ⟨EVal.fin 0, EVal.fin 0⟩

/-- A loop body whose index name `idx1` maps to the composite
expression `i0 + 5` (never itself an environment key). -/
def c10lb : LoopBody :=
  ⟨[("i0", SExpr.const 128)],
   [("idx1", SExpr.add (SExpr.sym "i0") (SExpr.const 5))], [], [], [], []⟩

/-! ### Association-list lemmas -/

theorem alookup_aupdate_self {α β : Type} [DecidableEq α]
    (l : List (α × β)) (k : α) (v : β) : alookup (aupdate l k v) k = some v := by
  induction l with
  | nil => simp [aupdate, alookup]
  | cons p rest ih =>
    obtain ⟨k0, v0⟩ := p
    by_cases h : k = k0 <;> simp [aupdate, alookup, h, ih]

theorem alookup_aupdate_ne {α β : Type} [DecidableEq α]
    (l : List (α × β)) (k k' : α) (v : β) (h : k' ≠ k) :
    alookup (aupdate l k v) k' = alookup l k' := by
  induction l with
  | nil => simp [aupdate, alookup, h]
  | cons p rest ih =>
    obtain ⟨k0, v0⟩ := p
    by_cases h0 : k = k0
    · subst h0; simp [aupdate, alookup, h]
    · by_cases h1 : k' = k0 <;> simp [aupdate, alookup, h0, h1, ih]

theorem alookup_aupdate_isSome {α β : Type} [DecidableEq α]
    (l : List (α × β)) (k k' : α) (v : β)
    (h : (alookup l k').isSome = true) :
    (alookup (aupdate l k v) k').isSome = true := by
  by_cases hk : k' = k
  · subst hk; rw [alookup_aupdate_self]; rfl
  · rw [alookup_aupdate_ne _ _ _ _ hk]; exact h

/-! ### Basic facts about the operations -/

theorem get_index_bounds_eq (lb : LoopBody) (st : BVState) (name : String)
    (v : VR) (st' : BVState) (h : get_index lb st name = Except.ok (v, st')) :
    st'.bounds = st.bounds := by
  unfold get_index at h
  cases he : alookup lb.indexingExprs name with
  | none => rw [he] at h; cases h
  | some expr =>
    rw [he] at h
    cases hp : alookup st.replacement_vals (EnvKey.expr expr) with
    | none => simp only [hp] at h; cases h; rfl
    | some pb =>
      simp only [hp] at h
      by_cases hb : boundSympy expr st.replacement_vals = pb
      · simp only [hb, if_pos rfl] at h; cases h; rfl
      · rw [if_neg hb] at h; cases h

theorem set_indirect_bounds_eq (st : BVState) (old : String) (new : PyVal) :
    (set_indirect st old new).2.bounds = st.bounds := by
  cases new <;> rfl

/-- C8: the two behaviours of `set_indirect`: a non-interval value is a
fatal assertion with the state untouched; an interval overwrites the
bound-environment entry of the indirect symbol and is returned
unchanged, with the bounds map and memoization cell untouched. -/
theorem c8_set_indirect_contract (st : BVState) (old : String) :
    (∀ tag : String,
        set_indirect st old (PyVal.other tag) = (Except.error "AssertionError", st))
    ∧ (∀ v : VR,
        (set_indirect st old (PyVal.vr v)).1 = Except.ok v
        ∧ (set_indirect st old (PyVal.vr v)).2.replacement_vals
            = aupdate st.replacement_vals (EnvKey.expr (SExpr.sym old)) v
        ∧ alookup (set_indirect st old (PyVal.vr v)).2.replacement_vals
            (EnvKey.expr (SExpr.sym old)) = some v
        ∧ (set_indirect st old (PyVal.vr v)).2.bounds = st.bounds
        ∧ (set_indirect st old (PyVal.vr v)).2.cache = st.cache) := by
  refine ⟨fun tag => rfl, fun v => ⟨rfl, rfl, ?_, rfl, rfl⟩⟩
  exact alookup_aupdate_self st.replacement_vals (EnvKey.expr (SExpr.sym old)) v

/-- C10: when the index expression is not itself a key of the bound
environment, `get_index` raises nothing (the equality assertion is
vacuous), performs no tightening, returns exactly the symbolic
evaluator's result for the expression against the current environment,
and stores that result under the index name. -/
theorem c10_expr_key_lookup (lb : LoopBody) (st : BVState) (name : String)
    (expr : SExpr) (h1 : alookup lb.indexingExprs name = some expr)
    (h2 : alookup st.replacement_vals (EnvKey.expr expr) = none) :
    get_index lb st name =
      Except.ok (boundSympy expr st.replacement_vals,
        { st with
            replacement_vals := aupdate st.replacement_vals (EnvKey.name name)
              (boundSympy expr st.replacement_vals) }) := by
  unfold get_index
  rw [h1]
  simp only [h2]

/-- Witness for C10 at a concrete input: `idx1` maps to `i0 + 5`, which
is not an environment key, so the resolution returns the evaluator's
interval `[5, 133]` and records it under the name. -/
theorem c10_expr_key_lookup_witness :
    get_index c10lb (BoundVars.init c10lb) "idx1" =
      Except.ok (⟨EVal.fin 5, EVal.fin 133⟩,
        { BoundVars.init c10lb with
            replacement_vals := aupdate (BoundVars.init c10lb).replacement_vals
              (EnvKey.name "idx1") ⟨EVal.fin 5, EVal.fin 133⟩ }) := by
  have h := c10_expr_key_lookup c10lb (BoundVars.init c10lb) "idx1"
    (SExpr.add (SExpr.sym "i0") (SExpr.const 5)) rfl rfl
  rw [h]
  rfl

/-- C2 (counterexample): the same index name `idx0` is resolved twice in
one run; between the two resolutions the indirect symbol its expression
reads is rebound to a looser interval. The second resolution succeeds
(no assertion compares it with the interval previously recorded for the
name) and returns `[0, 100]`, which is not a subset of the first
result `[0, 10]`. -/
theorem c2_counterexample :
    c2res1.map Prod.fst = Except.ok ⟨EVal.fin 0, EVal.fin 10⟩
    ∧ c2res2.map Prod.fst = Except.ok ⟨EVal.fin 0, EVal.fin 100⟩
    ∧ VR.subsetB ⟨EVal.fin 0, EVal.fin 100⟩ ⟨EVal.fin 0, EVal.fin 10⟩ = false :=
  ⟨rfl, rfl, rfl⟩

/-- C2 (amended): on re-resolution of an index name, the prior interval
consulted is the bound-environment entry keyed by the index expression
itself (not the interval previously recorded under the name): when such
an entry exists, the freshly evaluated interval must equal it (a
differing interval is fatal) and the stored and returned result is its
tightening against that entry. -/
theorem c2_amended_thm (lb : LoopBody) (st : BVState) (name : String)
    (expr : SExpr) (pb : VR)
    (h1 : alookup lb.indexingExprs name = some expr)
    (h2 : alookup st.replacement_vals (EnvKey.expr expr) = some pb) :
    get_index lb st name =
      (if boundSympy expr st.replacement_vals = pb
       then Except.ok ((boundSympy expr st.replacement_vals).tighten pb,
        { st with
            replacement_vals := aupdate st.replacement_vals (EnvKey.name name)
              ((boundSympy expr st.replacement_vals).tighten pb) })
       else Except.error "AssertionError") := by
  unfold get_index
  rw [h1]
  simp only [h2]

/-- Witness for the amended C2 at a concrete input: with the bare-symbol
expression `t` recorded at `[0, 10]`, resolution returns the tightened
(here unchanged) interval and stores it under the name. -/
theorem c2_amended_witness :
    get_index c2lb c2step1.2 "idx0" =
      Except.ok (⟨EVal.fin 0, EVal.fin 10⟩,
        { c2step1.2 with
            replacement_vals := aupdate c2step1.2.replacement_vals
              (EnvKey.name "idx0") ⟨EVal.fin 0, EVal.fin 10⟩ }) := by
  have h := c2_amended_thm c2lb c2step1.2 "idx0" (SExpr.sym "t")
    ⟨EVal.fin 0, EVal.fin 10⟩ rfl rfl
  rw [h]
  rfl

/-- C4 (counterexample): `set_indirect` overwrites unconditionally: the
environment entry for `t`, once `[0, 10]`, is replaced by `[0, 100]`,
which is not a subset of it, and no failure is raised. -/
theorem c4_counterexample :
    alookup c4step1.2.replacement_vals (EnvKey.expr (SExpr.sym "t"))
      = some ⟨EVal.fin 0, EVal.fin 10⟩
    ∧ alookup c4step2.2.replacement_vals (EnvKey.expr (SExpr.sym "t"))
      = some ⟨EVal.fin 0, EVal.fin 100⟩
    ∧ c4step2.1 = Except.ok ⟨EVal.fin 0, EVal.fin 100⟩
    ∧ VR.subsetB ⟨EVal.fin 0, EVal.fin 100⟩ ⟨EVal.fin 0, EVal.fin 10⟩ = false :=
  ⟨rfl, rfl, rfl, rfl⟩

/-- C4 (amended): the `set_indirect` mutation path is an unconditional
overwrite: whatever interval the bound environment held for the
indirect symbol, after the call it holds exactly the supplied interval
(no tightening against the previous entry is performed). -/
theorem c4_amended_thm (st : BVState) (old : String) (v : VR) :
    (set_indirect st old (PyVal.vr v)).1 = Except.ok v
    ∧ alookup (set_indirect st old (PyVal.vr v)).2.replacement_vals
        (EnvKey.expr (SExpr.sym old)) = some v :=
  ⟨rfl, alookup_aupdate_self st.replacement_vals (EnvKey.expr (SExpr.sym old)) v⟩

/-- C5: constructor seeding of the bound environment: a loop variable
whose declared upper bound has no free symbols is seeded with
`[0, bound]`; any other is seeded with `[0, +inf)`. -/
theorem c5_seeding (lb : LoopBody) (k : String) (v : SExpr)
    (h : alookup lb.varRanges k = some v) :
    alookup (initReplacementVals lb) (EnvKey.expr (SExpr.sym k)) =
      some (if freeSymbols v = [] then ⟨EVal.fin 0, EVal.fin (evalClosedExpr v)⟩
            else ⟨EVal.fin 0, EVal.posInf⟩) := by
  unfold initReplacementVals
  revert h
  generalize lb.varRanges = l
  intro h
  induction l with
  | nil => cases h
  | cons p rest ih =>
    obtain ⟨k0, v0⟩ := p
    by_cases hk : k = k0
    · subst hk
      simp only [alookup, if_pos rfl] at h
      injection h with hv
      subst hv
      simp [alookup]
    · have hkey : EnvKey.expr (SExpr.sym k) ≠ EnvKey.expr (SExpr.sym k0) := by
        simp [hk]
      simp only [alookup, if_neg hk] at h
      simp only [List.map_cons, alookup, if_neg hkey]
      exact ih h

/-- Witness for C5 at the spec's own example: loop variable `i0`
declared with the symbol-free bound 128 is seeded with `[0, 128]` (and
`s1`, whose bound has a free symbol, with `[0, +inf)`). -/
theorem c5_seeding_witness :
    alookup (initReplacementVals c5lb) (EnvKey.expr (SExpr.sym "i0"))
      = some ⟨EVal.fin 0, EVal.fin 128⟩
    ∧ alookup (initReplacementVals c5lb) (EnvKey.expr (SExpr.sym "s1"))
      = some ⟨EVal.fin 0, EVal.posInf⟩ := by
  constructor
  · have h := c5_seeding c5lb "i0" (SExpr.const 128) rfl
    rw [h]; rfl
  · have h := c5_seeding c5lb "s1" (SExpr.add (SExpr.sym "u") (SExpr.const 1)) rfl
    rw [h]; rfl

/-- C1 (the code at the failing input): with two masked subblocks, the
shared loop-local variable `subblock` ends holding the *last* sub-graph
`c1g1`, so invoking the handler registered for `masked_subblock0`
interprets `c1g1` and returns its output interval `[1, 1]`, while its
own sub-graph `c1g0` evaluates to `[0, 0]`. -/
theorem c1_late_binding_eval :
    (swap_submodules c1lb).subblockVar = some c1g1
    ∧ alookup (swap_submodules c1lb).table "masked_subblock0"
        = some SubmodHandler.maskedH
    ∧ (callSubmodule c1lb (swap_submodules c1lb) c1ops 4 "masked_subblock0"
        VR.unknown VR.unknown (BoundVars.init c1lb)).map Prod.fst
        = Except.ok ⟨EVal.fin 1, EVal.fin 1⟩
    ∧ (masked_subblock c1lb (swap_submodules c1lb) c1ops 4 c1g0
        (BoundVars.init c1lb) VR.unknown VR.unknown).map Prod.fst
        = Except.ok ⟨EVal.fin 0, EVal.fin 0⟩
    ∧ (⟨EVal.fin 1, EVal.fin 1⟩ : VR) ≠ ⟨EVal.fin 0, EVal.fin 0⟩ := by
  refine ⟨rfl, rfl, rfl, rfl, by decide⟩

/-- C9: `get_bounds` is memoized per engine instance: after a call
delivers a bounds map, any further call on the resulting state returns
the identical map with the state unchanged, for every fuel budget and
every operation handler — in particular for fuel 0, so the second call
performs no interpretation at all. -/
theorem c9_memoized (lb : LoopBody) (ops : String → List VR → VR) (fuel : Nat)
    (st : BVState) (b : List (Nat × VR)) (st' : BVState)
    (h : get_bounds lb ops fuel st = Except.ok (b, st'))
    (ops' : String → List VR → VR) (fuel' : Nat) :
    get_bounds lb ops' fuel' st' = Except.ok (b, st') := by
  unfold get_bounds at h ⊢
  cases hc : st.cache with
  | some c =>
    rw [hc] at h
    injection h with h1
    injection h1 with hb hst
    subst hb; subst hst
    rw [hc]
  | none =>
    rw [hc] at h
    cases hrun : interpRun lb (swap_submodules lb) ops fuel lb.rootGraph
        { st with bounds := prepopulate lb st.bounds, cache := none } with
    | error e => rw [hrun] at h; cases h
    | ok st2 =>
      rw [hrun] at h
      injection h with h1
      injection h1 with hb hst
      subst hb; subst hst
      rfl

/-- Witness for C9 at a concrete input: the first call computes the
bounds map of the one-node root graph; the second call, on the
resulting state with fuel 0 (so it could not interpret anything),
returns the identical map and state. -/
theorem c9_memoized_witness :
    get_bounds c9lb c9ops 0
      ⟨[(EnvKey.expr (SExpr.sym "i0"), ⟨EVal.fin 0, EVal.fin 4⟩)],
       [(40, ⟨EVal.fin 0, EVal.fin 0⟩)],
       some [(40, ⟨EVal.fin 0, EVal.fin 0⟩)]⟩
      = Except.ok ([(40, ⟨EVal.fin 0, EVal.fin 0⟩)],
        ⟨[(EnvKey.expr (SExpr.sym "i0"), ⟨EVal.fin 0, EVal.fin 4⟩)],
         [(40, ⟨EVal.fin 0, EVal.fin 0⟩)],
         some [(40, ⟨EVal.fin 0, EVal.fin 0⟩)]⟩) :=
  c9_memoized c9lb c9ops 2 (BoundVars.init c9lb)
    [(40, ⟨EVal.fin 0, EVal.fin 0⟩)]
    ⟨[(EnvKey.expr (SExpr.sym "i0"), ⟨EVal.fin 0, EVal.fin 4⟩)],
     [(40, ⟨EVal.fin 0, EVal.fin 0⟩)],
     some [(40, ⟨EVal.fin 0, EVal.fin 0⟩)]⟩
    rfl c9ops 0


/-- Once a node has an entry in the bounds map, every successful
interpreter run keeps it (entries are only ever added); and every node
of the processed graph ends with an entry. -/
theorem interp_preserve (lb : LoopBody) (sw : SwapResult)
    (ops : String → List VR → VR) :
    ∀ (fuel : Nat) (g : List FxNode) (st st1 : BVState),
      interpRun lb sw ops fuel g st = Except.ok st1 →
      ∀ i : Nat,
        ((alookup st.bounds i).isSome = true ∨ i ∈ g.map FxNode.id) →
        (alookup st1.bounds i).isSome = true := by
  intro fuel
  induction fuel with
  | zero =>
    intro g st st1 h i hi
    cases g with
    | nil =>
      injection h with h1
      subst h1
      rcases hi with hs | hm
      · exact hs
      · simp at hm
    | cons n rest => cases h
  | succ fuel ih =>
    intro g st st1 h i hi
    cases g with
    | nil =>
      injection h with h1
      subst h1
      rcases hi with hs | hm
      · exact hs
      · simp at hm
    | cons n rest =>
      simp only [List.map_cons, List.mem_cons] at hi
      by_cases hpres : (alookup st.bounds n.id).isSome = true
      · rw [interpRun, if_pos hpres] at h
        refine ih rest st st1 h i ?_
        rcases hi with hs | he | hm
        · exact Or.inl hs
        · exact Or.inl (he ▸ hpres)
        · exact Or.inr hm
      · rw [interpRun, if_neg hpres] at h
        split at h
        · -- get_index handler
          split at h
          all_goals try exact Except.noConfusion h
          split at h
          all_goals try exact Except.noConfusion h
          rename get_index lb st _ = Except.ok _ => heq
          have hbeq := get_index_bounds_eq lb st _ _ _ heq
          refine ih rest _ st1 h i ?_
          rcases hi with hs | he | hm
          · refine Or.inl (alookup_aupdate_isSome _ _ _ _ ?_)
            rw [hbeq]
            exact hs
          · refine Or.inl ?_
            rw [he, alookup_aupdate_self]
            rfl
          · exact Or.inr hm
        · -- masked handler
          split at h
          all_goals try exact Except.noConfusion h
          split at h
          all_goals try exact Except.noConfusion h
          split at h
          all_goals try exact Except.noConfusion h
          split at h
          all_goals try exact Except.noConfusion h
          split at h
          all_goals try exact Except.noConfusion h
          rename interpRun lb sw ops fuel _ st = Except.ok _ => heq2
          refine ih rest _ st1 h i ?_
          rcases hi with hs | he | hm
          · refine Or.inl (alookup_aupdate_isSome _ _ _ _ ?_)
            exact ih _ st _ heq2 i (Or.inl hs)
          · refine Or.inl ?_
            rw [he, alookup_aupdate_self]
            rfl
          · exact Or.inr hm
        · -- set_indirect handler
          split at h
          all_goals try exact Except.noConfusion h
          split at h
          all_goals try exact Except.noConfusion h
          rename set_indirect st _ _ = _ => heq
          have hbeq := by
            have h2 := congrArg (fun p => Prod.snd p) heq
            simp only at h2
            exact (congrArg BVState.bounds h2).symm.trans
              (set_indirect_bounds_eq st _ _)
          refine ih rest _ st1 h i ?_
          rcases hi with hs | he | hm
          · refine Or.inl (alookup_aupdate_isSome _ _ _ _ ?_)
            rw [hbeq]
            exact hs
          · refine Or.inl ?_
            rw [he, alookup_aupdate_self]
            rfl
          · exact Or.inr hm
        · -- bad key
          exact Except.noConfusion h
        · -- plain operation handler
          refine ih rest _ st1 h i ?_
          rcases hi with hs | he | hm
          · exact Or.inl (alookup_aupdate_isSome _ _ _ _ hs)
          · refine Or.inl ?_
            rw [he, alookup_aupdate_self]
            rfl
          · exact Or.inr hm

/-- Every node of a successfully interpreted graph has an entry in the
resulting bounds map. -/
theorem interp_records (lb : LoopBody) (sw : SwapResult)
    (ops : String → List VR → VR) (fuel : Nat) (g : List FxNode)
    (st st1 : BVState) (h : interpRun lb sw ops fuel g st = Except.ok st1)
    (nd : FxNode) (hnd : nd ∈ g) : (alookup st1.bounds nd.id).isSome = true :=
  interp_preserve lb sw ops fuel g st st1 h nd.id
    (Or.inr (List.mem_map_of_mem FxNode.id hnd))

/-- C6: on a sub-graph with exactly one `output` node, `masked_subblock`
returns the interval recorded for that output node by the recursive
interpretation of the sub-graph with the shared dispatch table `sw` and
the shared environment `st`; the supplied mask and default value have no
effect on the result. -/
theorem c6_masked_eval (lb : LoopBody) (sw : SwapResult)
    (ops : String → List VR → VR) (fuel : Nat) (g : List FxNode)
    (st st1 : BVState) (out : FxNode) (mask value mask2 value2 : VR)
    (hrun : interpRun lb sw ops fuel g st = Except.ok st1)
    (hout : g.filter (fun nd => nd.target == "output") = [out]) :
    ∃ v, alookup st1.bounds out.id = some v
      ∧ masked_subblock lb sw ops fuel g st mask value = Except.ok (v, st1)
      ∧ masked_subblock lb sw ops fuel g st mask2 value2 = Except.ok (v, st1) := by
  have hmem : out ∈ g := by
    have hm : out ∈ g.filter (fun nd => nd.target == "output") := by
      rw [hout]
      exact List.mem_singleton_self out
    exact List.mem_of_mem_filter hm
  have hs := interp_records lb sw ops fuel g st st1 hrun out hmem
  obtain ⟨v, hv⟩ := Option.isSome_iff_exists.mp hs
  refine ⟨v, hv, ?_, ?_⟩ <;>
    · unfold masked_subblock
      rw [hrun, hout]
      show (match alookup st1.bounds out.id with
            | some v => Except.ok (v, st1)
            | none => Except.error "KeyError") = Except.ok (v, st1)
      rw [hv]

/-- Witness for C6 at a concrete input: two `masked_subblock` calls on
`c6g` differing only in mask and default value coincide, and the
returned interval is the output node's `[2, 3]`. -/
theorem c6_masked_eval_witness :
    masked_subblock c6lb (swap_submodules c6lb) c6ops 3 c6g (BoundVars.init c6lb)
        ⟨EVal.fin 0, EVal.fin 0⟩ ⟨EVal.fin 9, EVal.fin 9⟩
      = masked_subblock c6lb (swap_submodules c6lb) c6ops 3 c6g (BoundVars.init c6lb)
        VR.unknown VR.unknown
    ∧ (masked_subblock c6lb (swap_submodules c6lb) c6ops 3 c6g (BoundVars.init c6lb)
        VR.unknown VR.unknown).map Prod.fst = Except.ok ⟨EVal.fin 2, EVal.fin 3⟩ := by
  obtain ⟨v, hv, h1, h2⟩ :=
    c6_masked_eval c6lb (swap_submodules c6lb) c6ops 3 c6g (BoundVars.init c6lb)
      ⟨[], [(20, ⟨EVal.fin 2, EVal.fin 3⟩), (21, ⟨EVal.fin 2, EVal.fin 3⟩)], none⟩
      ⟨21, "output", [FxArg.node 20]⟩ ⟨EVal.fin 0, EVal.fin 0⟩ ⟨EVal.fin 9, EVal.fin 9⟩
      VR.unknown VR.unknown rfl rfl
  have hx : alookup
      (⟨[], [(20, ⟨EVal.fin 2, EVal.fin 3⟩), (21, ⟨EVal.fin 2, EVal.fin 3⟩)],
        none⟩ : BVState).bounds
      (FxNode.mk 21 "output" [FxArg.node 20]).id = some ⟨EVal.fin 2, EVal.fin 3⟩ := rfl
  have hv2 : v = ⟨EVal.fin 2, EVal.fin 3⟩ := Option.some.inj (hv.symm.trans hx)
  subst hv2
  exact ⟨h1.trans h2.symm, by rw [h2]; rfl⟩

/-- C7: given that the recursive interpretation of the sub-graph
delivers a state, `masked_subblock` succeeds exactly when the sub-graph
has one `output` node: zero or several output nodes trip the fatal
assertion, a single one never raises. -/
theorem c7_output_assert (lb : LoopBody) (sw : SwapResult)
    (ops : String → List VR → VR) (fuel : Nat) (g : List FxNode)
    (st st1 : BVState) (mask value : VR)
    (hrun : interpRun lb sw ops fuel g st = Except.ok st1) :
    exOk (masked_subblock lb sw ops fuel g st mask value) = true
      ↔ (g.filter (fun nd => nd.target == "output")).length = 1 := by
  unfold masked_subblock
  rw [hrun]
  cases hf : g.filter (fun nd => nd.target == "output") with
  | nil => simp [exOk]
  | cons out tail =>
    cases tail with
    | nil =>
      have hmem : out ∈ g := by
        have hm : out ∈ g.filter (fun nd => nd.target == "output") := by
          rw [hf]
          exact List.mem_singleton_self out
        exact List.mem_of_mem_filter hm
      have hs := interp_records lb sw ops fuel g st st1 hrun out hmem
      obtain ⟨v, hv⟩ := Option.isSome_iff_exists.mp hs
      show exOk (match alookup st1.bounds out.id with
            | some v => Except.ok (v, st1)
            | none => Except.error "KeyError") = true ↔ [out].length = 1
      rw [hv]
      simp [exOk]
    | cons b t2 =>
      simp only [exOk, List.length_cons]
      constructor
      · intro hc
        cases hc
      · intro hc
        exact absurd hc (by omega)

/-- Witness for C7 at a concrete input: on `c7g`, whose filter for
`output` nodes has length one, the call succeeds. -/
theorem c7_output_assert_witness :
    exOk (masked_subblock c7lb (swap_submodules c7lb) c7ops 3 c7g
      (BoundVars.init c7lb) VR.unknown VR.unknown) = true
    ∧ (c7g.filter (fun nd => nd.target == "output")).length = 1 :=
  ⟨(c7_output_assert c7lb (swap_submodules c7lb) c7ops 3 c7g (BoundVars.init c7lb)
      ⟨[], [(30, VR.unknown), (31, VR.unknown)], none⟩ VR.unknown VR.unknown rfl).mpr
      rfl,
   rfl⟩

/-! ### Dominance computation: the executable fixpoint agrees with the
specification-level transitive data dependence -/

theorem domStep_start_subset (nodes : List FxNode) (s : Finset Nat) :
    s ⊆ domStep nodes s :=
  Finset.subset_union_left

theorem domStep_new_mem (nodes : List FxNode) (s : Finset Nat) (i : Nat)
    (hi : i ∈ domStep nodes s) (hns : i ∉ s) : i ∈ nodeIdSet nodes := by
  unfold domStep at hi
  rcases Finset.mem_union.mp hi with h | h
  · exact absurd h hns
  · rw [List.mem_toFinset] at h
    obtain ⟨n, hn, hsome⟩ := List.mem_filterMap.mp h
    unfold nodeIdSet
    rw [List.mem_toFinset]
    by_cases hu : usesAny n s = true
    · rw [if_pos hu] at hsome
      injection hsome with h2
      exact h2 ▸ List.mem_map_of_mem FxNode.id hn
    · rw [if_neg hu] at hsome
      cases hsome

theorem domIter_start_subset (nodes : List FxNode) :
    ∀ (fuel : Nat) (s : Finset Nat), s ⊆ domIter nodes fuel s := by
  intro fuel
  induction fuel with
  | zero =>
    intro s
    rw [domIter]
  | succ fuel ih =>
    intro s
    rw [domIter]
    by_cases hfix : domStep nodes s = s
    · rw [if_pos hfix]
    · rw [if_neg hfix]
      exact (domStep_start_subset nodes s).trans (ih (domStep nodes s))

theorem domIter_fix (nodes : List FxNode) :
    ∀ (fuel : Nat) (s : Finset Nat),
      ((nodeIdSet nodes) \ s).card < fuel →
      domStep nodes (domIter nodes fuel s) = domIter nodes fuel s := by
  intro fuel
  induction fuel with
  | zero =>
    intro s h
    exact absurd h (Nat.not_lt_zero _)
  | succ fuel ih =>
    intro s h
    rw [domIter]
    by_cases hfix : domStep nodes s = s
    · rw [if_pos hfix]
      exact hfix
    · rw [if_neg hfix]
      refine ih (domStep nodes s) ?_
      have hx : ∃ x ∈ domStep nodes s, x ∉ s := by
        by_contra hc
        push_neg at hc
        exact hfix (Finset.Subset.antisymm (fun y hy => hc y hy)
          (domStep_start_subset nodes s))
      obtain ⟨x, hxs', hxs⟩ := hx
      have hxid : x ∈ nodeIdSet nodes := domStep_new_mem nodes s x hxs' hxs
      have hsubset : (nodeIdSet nodes \ domStep nodes s) ⊆ (nodeIdSet nodes \ s) := by
        intro y hy
        rw [Finset.mem_sdiff] at hy ⊢
        exact ⟨hy.1, fun hc => hy.2 (domStep_start_subset nodes s hc)⟩
      have hsub : (nodeIdSet nodes \ domStep nodes s) ⊂ (nodeIdSet nodes \ s) :=
        (Finset.ssubset_iff_of_subset hsubset).mpr
          ⟨x, Finset.mem_sdiff.mpr ⟨hxid, hxs⟩,
           fun hc => (Finset.mem_sdiff.mp hc).2 hxs'⟩
      have hlt := Finset.card_lt_card hsub
      omega

theorem dominated_fixpoint (nodes : List FxNode) (seeds : Finset Nat) :
    domStep nodes (dominatedIds nodes seeds) = dominatedIds nodes seeds := by
  unfold dominatedIds
  refine domIter_fix nodes _ seeds ?_
  have h1 : (nodeIdSet nodes \ seeds).card ≤ (nodeIdSet nodes).card :=
    Finset.card_le_card Finset.sdiff_subset
  omega

theorem dominated_seed_subset (nodes : List FxNode) (seeds : Finset Nat) :
    seeds ⊆ dominatedIds nodes seeds :=
  domIter_start_subset nodes _ seeds

theorem dominated_dep (nodes : List FxNode) (seeds : Finset Nat) (n : FxNode)
    (m : Nat) (hn : n ∈ nodes) (hm : m ∈ dominatedIds nodes seeds)
    (ha : FxArg.node m ∈ n.args) : n.id ∈ dominatedIds nodes seeds := by
  have huse : usesAny n (dominatedIds nodes seeds) = true := by
    unfold usesAny
    rw [List.any_eq_true]
    exact ⟨FxArg.node m, ha, decide_eq_true hm⟩
  have hstep : n.id ∈ domStep nodes (dominatedIds nodes seeds) := by
    unfold domStep
    refine Finset.mem_union.mpr (Or.inr ?_)
    rw [List.mem_toFinset, List.mem_filterMap]
    exact ⟨n, hn, by rw [if_pos huse]⟩
  rw [dominated_fixpoint] at hstep
  exact hstep

theorem InDom_subset_dominated (nodes : List FxNode) (seedsL : List Nat) (i : Nat)
    (h : InDom nodes seedsL i) : i ∈ dominatedIds nodes seedsL.toFinset := by
  induction h with
  | seed j hj => exact dominated_seed_subset nodes _ (List.mem_toFinset.mpr hj)
  | dep n m hn _ ha ih => exact dominated_dep nodes _ n m hn ih ha

theorem domIter_InDom (nodes : List FxNode) (seedsL : List Nat) :
    ∀ (fuel : Nat) (s : Finset Nat), (∀ x ∈ s, InDom nodes seedsL x) →
      ∀ i ∈ domIter nodes fuel s, InDom nodes seedsL i := by
  intro fuel
  induction fuel with
  | zero =>
    intro s hs i hi
    rw [domIter] at hi
    exact hs i hi
  | succ fuel ih =>
    intro s hs i hi
    rw [domIter] at hi
    by_cases hfix : domStep nodes s = s
    · rw [if_pos hfix] at hi
      exact hs i hi
    · rw [if_neg hfix] at hi
      refine ih (domStep nodes s) ?_ i hi
      intro x hx
      rcases Finset.mem_union.mp hx with h1 | h1
      · exact hs x h1
      · rw [List.mem_toFinset] at h1
        obtain ⟨n, hn, hsome⟩ := List.mem_filterMap.mp h1
        by_cases hu : usesAny n s = true
        · rw [if_pos hu] at hsome
          injection hsome with h2
          subst h2
          unfold usesAny at hu
          rw [List.any_eq_true] at hu
          obtain ⟨a, hamem, hatrue⟩ := hu
          cases a with
          | node m =>
            have hm : m ∈ s := of_decide_eq_true hatrue
            exact InDom.dep n m hn (hs m hm) hamem
          | str s2 => exact Bool.noConfusion hatrue
        · rw [if_neg hu] at hsome
          cases hsome

theorem dominated_subset_InDom (nodes : List FxNode) (seedsL : List Nat) (i : Nat)
    (h : i ∈ dominatedIds nodes seedsL.toFinset) : InDom nodes seedsL i :=
  domIter_InDom nodes seedsL _ seedsL.toFinset
    (fun x hx => InDom.seed x (List.mem_toFinset.mp hx)) i h

/-! ### Pre-population -/

theorem prepop_keep (l : List FxNode) :
    ∀ (b : List (Nat × VR)) (i : Nat), alookup b i = some VR.unknown →
      alookup (l.foldl prepopStep b) i = some VR.unknown := by
  induction l with
  | nil =>
    intro b i h
    exact h
  | cons n rest ih =>
    intro b i h
    rw [List.foldl_cons]
    refine ih _ i ?_
    unfold prepopStep
    by_cases hp : containsSubstr n.target "masked_subblock" = false
        ∧ containsSubstr n.target "set_indirect" = false
    · rw [if_pos hp]
      by_cases hik : i = n.id
      · subst hik
        rw [alookup_aupdate_self]
      · rw [alookup_aupdate_ne _ _ _ _ hik]
        exact h
    · rw [if_neg hp]
      exact h

theorem prepop_mem (l : List FxNode) :
    ∀ (b : List (Nat × VR)) (i : Nat) (v : VR),
      alookup (l.foldl prepopStep b) i = some v →
      (∃ n ∈ l, (containsSubstr n.target "masked_subblock" = false
          ∧ containsSubstr n.target "set_indirect" = false) ∧ n.id = i
          ∧ v = VR.unknown)
      ∨ alookup b i = some v := by
  induction l with
  | nil =>
    intro b i v h
    exact Or.inr h
  | cons n rest ih =>
    intro b i v h
    rw [List.foldl_cons] at h
    rcases ih _ i v h with h1 | h1
    · obtain ⟨n2, hn2, hp, hid, hv⟩ := h1
      exact Or.inl ⟨n2, List.mem_cons_of_mem n hn2, hp, hid, hv⟩
    · unfold prepopStep at h1
      by_cases hp : containsSubstr n.target "masked_subblock" = false
          ∧ containsSubstr n.target "set_indirect" = false
      · rw [if_pos hp] at h1
        by_cases hik : i = n.id
        · subst hik
          rw [alookup_aupdate_self] at h1
          injection h1 with hv
          exact Or.inl ⟨n, List.mem_cons_self n rest, hp, rfl, hv.symm⟩
        · rw [alookup_aupdate_ne _ _ _ _ hik] at h1
          exact Or.inr h1
      · rw [if_neg hp] at h1
        exact Or.inr h1

theorem prepop_sets (l : List FxNode) :
    ∀ (b : List (Nat × VR)) (n : FxNode), n ∈ l →
      containsSubstr n.target "masked_subblock" = false →
      containsSubstr n.target "set_indirect" = false →
      alookup (l.foldl prepopStep b) n.id = some VR.unknown := by
  induction l with
  | nil =>
    intro b n h
    cases h
  | cons m rest ih =>
    intro b n hmem h1 h2
    rw [List.foldl_cons]
    rcases List.mem_cons.mp hmem with he | hm
    · subst he
      refine prepop_keep rest _ n.id ?_
      unfold prepopStep
      rw [if_pos ⟨h1, h2⟩, alookup_aupdate_self]
    · exact ih _ n hm h1 h2

/-- C3: starting from a fresh engine state, a node of the loop body is
pre-populated with the unknown interval exactly when it is a seed
(load, reduction or masked-subblock invocation) or transitively
data-dependent on one, and is not itself a masked-subblock or
set-indirect node — the latter are never pre-populated. -/
theorem c3_prepopulation (lb : LoopBody)
    (hnd : (lb.getNodes.map FxNode.id).Nodup) (n : FxNode)
    (hn : n ∈ lb.getNodes) :
    alookup (prepopulate lb (BoundVars.init lb).bounds) n.id = some VR.unknown
      ↔ (InDom lb.getNodes (seedIds lb) n.id
          ∧ containsSubstr n.target "masked_subblock" = false
          ∧ containsSubstr n.target "set_indirect" = false) := by
  constructor
  · intro h
    unfold prepopulate at h
    rcases prepop_mem (unbounded_vars lb) _ n.id VR.unknown h with h1 | h1
    · obtain ⟨n2, hn2, hp, hid, _⟩ := h1
      unfold unbounded_vars at hn2
      rw [List.mem_filter] at hn2
      obtain ⟨hn2g, hdec⟩ := hn2
      have hdom : n2.id ∈ dominatedIds lb.getNodes (seedIds lb).toFinset :=
        of_decide_eq_true hdec
      have heqn : n2 = n := List.inj_on_of_nodup_map hnd hn2g hn hid
      subst heqn
      exact ⟨dominated_subset_InDom _ _ _ hdom, hp.1, hp.2⟩
    · exact Option.noConfusion h1
  · rintro ⟨hdom, h1, h2⟩
    unfold prepopulate
    refine prepop_sets (unbounded_vars lb) _ n ?_ h1 h2
    unfold unbounded_vars
    rw [List.mem_filter]
    exact ⟨hn, decide_eq_true (InDom_subset_dominated _ _ _ hdom)⟩

/-- Witness for C3 at a concrete input: in a graph with a `load` node
and an `add` node consuming it, the `add` node (transitively dependent
on the seed, not masked, not set-indirect) is pre-populated with the
unknown interval. -/
theorem c3_prepopulation_witness :
    alookup (prepopulate c3lb (BoundVars.init c3lb).bounds)
      (FxNode.mk 1 "add" [FxArg.node 0]).id = some VR.unknown :=
  (c3_prepopulation c3lb (by decide) ⟨1, "add", [FxArg.node 0]⟩ (by decide)).mpr
    ⟨InDom.dep ⟨1, "add", [FxArg.node 0]⟩ 0 (by decide)
      (InDom.seed 0 (by decide)) (by decide), rfl, rfl⟩
